import Mathlib

/-!
Verification of the cpp-owl-common wire codec and framing library.

The development shallowly embeds the C++ sources:
  * `src/netbuffer.{hpp,cpp}` - the byte codec (`BuffReader`, the
    encoder helpers `pushBackVal`, `pushBackSizedUTF16`,
    `pushSizedContainer`, and the free function `readPrimitive`);
  * `src/aggregator_solver_protocol.cpp` - `decodeSubscribeMsg`,
    `decodeSampleMsg`;
  * `src/world_model_protocol.cpp` - the client and solver message
    encoders and decoders;
  * `src/message_receiver.cpp` - the length-prefix framer.

Bytes are modelled as `Nat` (each byte `< 256` when well formed) and
buffers as `List Nat`.  Multi-byte values travel big-endian on the
wire; `readPrimitive<T>` is modelled by width so a 16-byte read yields
`upper * 2^64 + lower`, exactly the value the C++ endian conversion
produces.  Machine arithmetic that can wrap (`uint32_t` length fields)
is modelled with explicit `% 2^32`.  A 32-bit float field is kept as
its big-endian bit pattern; IEEE semantics are never needed.
-/

namespace Owl

/-- Big-endian byte image of a value, `width` bytes, most significant
first.  Mirrors `toNetworkEndian` + the byte copy in `pushBackVal`:
only the low `width` bytes of the value are kept. -/
def beBytes : Nat → Nat → List Nat
  | 0, _ => []
  | w + 1, v => beBytes w (v / 256) ++ [v % 256]

/-- Big-endian value of a byte list, mirroring `fromNetworkEndian`
applied to bytes copied from the buffer. -/
def beVal (bs : List Nat) : Nat :=
  bs.foldl (fun acc b => acc * 256 + b) 0

theorem beBytes_length (w v : Nat) : (beBytes w v).length = w := by
  induction w generalizing v with
  | zero => rfl
  | succ w ih => simp [beBytes, ih]

theorem beVal_append_single (bs : List Nat) (b : Nat) :
    beVal (bs ++ [b]) = beVal bs * 256 + b := by
  simp [beVal, List.foldl_append]

theorem beVal_beBytes (w v : Nat) (hv : v < 256 ^ w) :
    beVal (beBytes w v) = v := by
  induction w generalizing v with
  | zero =>
    simp [beBytes, beVal]
    omega
  | succ w ih =>
    have hdiv : v / 256 < 256 ^ w := by
      rw [Nat.div_lt_iff_lt_mul (by norm_num : 0 < 256)]
      calc v < 256 ^ (w + 1) := hv
        _ = 256 ^ w * 256 := by ring
    rw [beBytes, beVal_append_single, ih _ hdiv]
    omega

/-- Two's-complement image of a signed 64-bit value, as pushed by
`pushBackVal<int64_t>`. -/
def i64Bytes (t : Int) : List Nat :=
  beBytes 8 (t % (2 ^ 64 : Int)).toNat

/-- Signed interpretation of a 64-bit big-endian value, as produced by
`readPrimitive<int64_t>`. -/
def i64OfNat (n : Nat) : Int :=
  if n < 2 ^ 63 then (n : Int) else (n : Int) - 2 ^ 64

theorem i64Bytes_length (t : Int) : (i64Bytes t).length = 8 :=
  beBytes_length _ _

theorem i64_emod_lt (t : Int) : (t % (2 ^ 64 : Int)).toNat < 2 ^ 64 := by
  have h1 : 0 ≤ t % (2 ^ 64 : Int) := Int.emod_nonneg t (by norm_num)
  have h2 : t % (2 ^ 64 : Int) < 2 ^ 64 := Int.emod_lt_of_pos t (by norm_num)
  omega

theorem i64OfNat_emod (t : Int) (hlo : -(2 ^ 63) ≤ t) (hhi : t < 2 ^ 63) :
    i64OfNat (t % (2 ^ 64 : Int)).toNat = t := by
  unfold i64OfNat
  split <;> omega

/-- UTF-16BE byte image of a string of 16-bit code units, as pushed by
`pushBackUTF16` (one `pushBackVal<char16_t>` per unit). -/
def utf16Bytes : List Nat → List Nat
  | [] => []
  | c :: cs => beBytes 2 c ++ utf16Bytes cs

theorem utf16Bytes_length (s : List Nat) :
    (utf16Bytes s).length = 2 * s.length := by
  induction s with
  | nil => rfl
  | cons c cs ih => simp [utf16Bytes, beBytes_length, ih]; omega

/-- Byte image of a `vector<uint8_t>`, as pushed element-wise by
`pushBackVal<uint8_t>` inside `pushSizedContainer`. -/
def u8Bytes : List Nat → List Nat
  | [] => []
  | b :: bs => beBytes 1 b ++ u8Bytes bs

theorem u8Bytes_length (d : List Nat) : (u8Bytes d).length = d.length := by
  induction d with
  | nil => rfl
  | cons b bs ih => simp [u8Bytes, beBytes_length, ih]; omega

theorem u8Bytes_of_bytes (d : List Nat) (hd : ∀ b ∈ d, b < 256) :
    u8Bytes d = d := by
  induction d with
  | nil => rfl
  | cons b bs ih =>
    have hb : b < 256 := hd b (List.mem_cons_self _ _)
    have : beBytes 1 b = [b] := by
      simp [beBytes, Nat.mod_eq_of_lt hb]
    rw [u8Bytes, this, ih (fun x hx => hd x (List.mem_cons_of_mem _ hx))]
    rfl

/-- `pushBackSizedUTF16`: a `uint32_t` byte length (`2 * code_units`)
followed by the UTF-16BE bytes. -/
def sizedUTF16Bytes (s : List Nat) : List Nat :=
  beBytes 4 (2 * s.length) ++ utf16Bytes s

theorem sizedUTF16Bytes_length (s : List Nat) :
    (sizedUTF16Bytes s).length = 4 + 2 * s.length := by
  simp [sizedUTF16Bytes, beBytes_length, utf16Bytes_length]

/-- `pushSizedContainer` on a `vector<uint8_t>`: a `uint32_t` byte
length followed by the raw bytes. -/
def sizedBlobBytes (d : List Nat) : List Nat :=
  beBytes 4 d.length ++ u8Bytes d

theorem sizedBlobBytes_length (d : List Nat) :
    (sizedBlobBytes d).length = 4 + d.length := by
  simp [sizedBlobBytes, beBytes_length, u8Bytes_length]

/-- `pushBackVal(v, buff, 0)` on a 4-byte value: overwrite the first
four bytes of the buffer in place. -/
def writeLen (v : Nat) (buff : List Nat) : List Nat :=
  beBytes 4 v ++ buff.drop 4

/-- The free function `readPrimitive<T>(buff, index)`
(netbuffer.hpp, template definition): reassemble `sizeof(T)` bytes
big-endian when `index + sizeof(T) - 1 < buff.size()`, else return 0
without touching the buffer. -/
def readPrimitiveAt (w : Nat) (buff : List Nat) (index : Nat) : Nat :=
  if index + (w - 1) < buff.length then beVal ((buff.drop index).take w)
  else 0

/-- `BuffReader` (netbuffer.hpp): a byte buffer, a cursor, and the
latched out-of-range flag.  The `little_endian` member only selects
the host conversion and has no observable effect on decoded values. -/
structure BuffReader where
  buff : List Nat
  cur_index : Nat
  out_of_range : Bool
deriving DecidableEq, Repr

namespace BuffReader

/-- The `BuffReader` constructor: cursor 0, flag clear. -/
def init (buffer : List Nat) : BuffReader :=
  { buff := buffer, cur_index := 0, out_of_range := false }

end BuffReader

/-- `BuffReader::readPrimitive<T>` for a `sizeof(T) = w` type: if
`cur_index + w <= buff.size()`, copy `w` bytes, advance, and decode
big-endian; otherwise latch `_out_of_range` and return the zero value.
Note the cursor is not moved on failure. -/
def readPrimitive (w : Nat) (r : BuffReader) : Nat × BuffReader :=
  if r.cur_index + w ≤ r.buff.length then
    (beVal ((r.buff.drop r.cur_index).take w),
     { r with cur_index := r.cur_index + w })
  else
    (0, { r with out_of_range := true })

/-- The loop of `BuffReader::readUTF16(size)`: `size` unconditional
2-byte reads. -/
def readUTF16Units : Nat → BuffReader → List Nat × BuffReader
  | 0, r => ([], r)
  | n + 1, r =>
    let p := readPrimitive 2 r
    let q := readUTF16Units n p.2
    (p.1 :: q.1, q.2)

/-- `BuffReader::readSizedUTF16`: read a `uint32_t` byte length, then
`size / 2` UTF-16 code units. -/
def readSizedUTF16 (r : BuffReader) : List Nat × BuffReader :=
  let p := readPrimitive 4 r
  readUTF16Units (p.1 / 2) p.2

/-- The loop of `BuffReader::readSizedVector<T>`: before each element
the remaining-bytes guard `cur_index + val_size <= buff.size()` is
tested and the loop stops silently when it fails. -/
def readVecLoop (valSize : Nat) : Nat → BuffReader → List Nat × BuffReader
  | 0, r => ([], r)
  | n + 1, r =>
    if r.cur_index + valSize ≤ r.buff.length then
      let p := readPrimitive valSize r
      let q := readVecLoop valSize n p.2
      (p.1 :: q.1, q.2)
    else
      ([], r)

/-- `BuffReader::readSizedVector<T>`: a `uint32_t` size prefix divided
by `sizeof(T)`, then the guarded element loop. -/
def readSizedVector (valSize : Nat) (r : BuffReader) : List Nat × BuffReader :=
  let p := readPrimitive 4 r
  readVecLoop valSize (p.1 / valSize) p.2

/-- The loop of `BuffReader::readPrimitiveContainer` reading into a
container of `n` zero-initialised elements: elements are overwritten
while the remaining-bytes guard holds; once it fails the rest keep
their zero value. -/
def readPrimContainer (valSize : Nat) : Nat → BuffReader → List Nat × BuffReader
  | 0, r => ([], r)
  | n + 1, r =>
    if r.cur_index + valSize ≤ r.buff.length then
      let p := readPrimitive valSize r
      let q := readPrimContainer valSize n p.2
      (p.1 :: q.1, q.2)
    else
      (List.replicate (n + 1) 0, r)

/-! ### Reader specification lemmas

Each lemma describes a read over a buffer whose bytes from the cursor
onward are a known encoding followed by arbitrary trailing bytes. -/

theorem drop_add_of_drop {l a b : List Nat} {i k : Nat}
    (h : l.drop i = a ++ b) (ha : a.length = k) :
    l.drop (i + k) = b := by
  rw [← List.drop_drop, h, ← ha, List.drop_left]

theorem readPrimitive_spec (r : BuffReader) (w v : Nat) (post : List Nat)
    (hw : 0 < w) (hv : v < 256 ^ w)
    (hd : r.buff.drop r.cur_index = beBytes w v ++ post) :
    readPrimitive w r = (v, { r with cur_index := r.cur_index + w }) := by
  have hlen : (r.buff.drop r.cur_index).length = r.buff.length - r.cur_index :=
    List.length_drop _ _
  have hbl : (beBytes w v).length = w := beBytes_length _ _
  have hge : r.cur_index + w ≤ r.buff.length := by
    rw [hd] at hlen
    simp [hbl] at hlen
    omega
  have htake : (beBytes w v ++ post).take w = beBytes w v := by
    have := List.take_left (beBytes w v) post
    rwa [hbl] at this
  unfold readPrimitive
  rw [if_pos hge, hd, htake, beVal_beBytes _ _ hv]

theorem readPrimitive_flag (w : Nat) (r : BuffReader)
    (h : r.out_of_range = true) :
    ((readPrimitive w r).2).out_of_range = true := by
  unfold readPrimitive
  split <;> simp [h]

theorem readPrimitive_buff (w : Nat) (r : BuffReader) :
    ((readPrimitive w r).2).buff = r.buff := by
  unfold readPrimitive
  split <;> rfl

theorem readUTF16Units_spec (s : List Nat) (r : BuffReader) (post : List Nat)
    (hc : ∀ c ∈ s, c < 2 ^ 16)
    (hd : r.buff.drop r.cur_index = utf16Bytes s ++ post) :
    readUTF16Units s.length r =
      (s, { r with cur_index := r.cur_index + 2 * s.length }) := by
  induction s generalizing r with
  | nil =>
    simp [readUTF16Units]
  | cons c cs ih =>
    have hc0 : c < 2 ^ 16 := hc c (List.mem_cons_self _ _)
    have hc0' : c < 256 ^ 2 := by norm_num at hc0 ⊢; omega
    have hd1 : r.buff.drop r.cur_index = beBytes 2 c ++ (utf16Bytes cs ++ post) := by
      rw [hd]; simp [utf16Bytes]
    have h1 := readPrimitive_spec r 2 c (utf16Bytes cs ++ post)
      (by norm_num) hc0' hd1
    have hd2 : r.buff.drop (r.cur_index + 2) = utf16Bytes cs ++ post :=
      drop_add_of_drop hd1 (beBytes_length _ _)
    have h2 := ih { r with cur_index := r.cur_index + 2 }
      (fun x hx => hc x (List.mem_cons_of_mem _ hx)) hd2
    have harith : r.cur_index + 2 + 2 * cs.length = r.cur_index + 2 * (cs.length + 1) := by
      omega
    simp only [List.length_cons, readUTF16Units, h1, h2, harith]

theorem readSizedUTF16_spec (r : BuffReader) (s : List Nat) (post : List Nat)
    (hc : ∀ c ∈ s, c < 2 ^ 16) (hl : 2 * s.length < 2 ^ 32)
    (hd : r.buff.drop r.cur_index = sizedUTF16Bytes s ++ post) :
    readSizedUTF16 r =
      (s, { r with cur_index := r.cur_index + 4 + 2 * s.length }) := by
  have hl' : 2 * s.length < 256 ^ 4 := by norm_num at hl ⊢; omega
  have hd1 : r.buff.drop r.cur_index = beBytes 4 (2 * s.length) ++ (utf16Bytes s ++ post) := by
    rw [hd]; simp [sizedUTF16Bytes]
  have h1 := readPrimitive_spec r 4 (2 * s.length) (utf16Bytes s ++ post)
    (by norm_num) hl' hd1
  have hd2 : r.buff.drop (r.cur_index + 4) = utf16Bytes s ++ post :=
    drop_add_of_drop hd1 (beBytes_length _ _)
  have h2 := readUTF16Units_spec s { r with cur_index := r.cur_index + 4 } post hc hd2
  have hdiv : 2 * s.length / 2 = s.length := by omega
  unfold readSizedUTF16
  simp only [h1, hdiv, h2]

theorem readVecLoop_spec (d : List Nat) (r : BuffReader) (post : List Nat)
    (hb : ∀ b ∈ d, b < 256)
    (hd : r.buff.drop r.cur_index = d ++ post) :
    readVecLoop 1 d.length r =
      (d, { r with cur_index := r.cur_index + d.length }) := by
  induction d generalizing r with
  | nil => simp [readVecLoop]
  | cons b bs ih =>
    have hb0 : b < 256 := hb b (List.mem_cons_self _ _)
    have hbe : beBytes 1 b = [b] := by
      simp [beBytes, Nat.mod_eq_of_lt hb0]
    have hd1 : r.buff.drop r.cur_index = beBytes 1 b ++ (bs ++ post) := by
      rw [hd, hbe]; rfl
    have hg : r.cur_index + 1 ≤ r.buff.length := by
      have hlen : (r.buff.drop r.cur_index).length = r.buff.length - r.cur_index :=
        List.length_drop _ _
      rw [hd] at hlen
      simp at hlen
      omega
    have h1 := readPrimitive_spec r 1 b (bs ++ post) (by norm_num)
      (by norm_num; omega) hd1
    have hd2 : r.buff.drop (r.cur_index + 1) = bs ++ post :=
      drop_add_of_drop hd1 (beBytes_length _ _)
    have h2 := ih { r with cur_index := r.cur_index + 1 }
      (fun x hx => hb x (List.mem_cons_of_mem _ hx)) hd2
    have harith : r.cur_index + 1 + bs.length = r.cur_index + (bs.length + 1) := by omega
    simp only [List.length_cons, readVecLoop, if_pos hg, h1, h2, harith]

theorem readSizedVector_spec (r : BuffReader) (d : List Nat) (post : List Nat)
    (hb : ∀ b ∈ d, b < 256) (hl : d.length < 2 ^ 32)
    (hd : r.buff.drop r.cur_index = sizedBlobBytes d ++ post) :
    readSizedVector 1 r =
      (d, { r with cur_index := r.cur_index + 4 + d.length }) := by
  have hl' : d.length < 256 ^ 4 := by norm_num at hl ⊢; omega
  have hd1 : r.buff.drop r.cur_index = beBytes 4 d.length ++ (u8Bytes d ++ post) := by
    rw [hd]; simp [sizedBlobBytes]
  have h1 := readPrimitive_spec r 4 d.length (u8Bytes d ++ post)
    (by norm_num) hl' hd1
  have hd2 : r.buff.drop (r.cur_index + 4) = d ++ post := by
    have := drop_add_of_drop hd1 (beBytes_length _ _)
    rwa [u8Bytes_of_bytes d hb] at this
  have h2 := readVecLoop_spec d { r with cur_index := r.cur_index + 4 } post hb hd2
  unfold readSizedVector
  simp only [h1, Nat.div_one, h2]

/-! ### Out-of-range flag lemmas -/

theorem readUTF16Units_flag (n : Nat) (r : BuffReader)
    (h : r.out_of_range = true) :
    ((readUTF16Units n r).2).out_of_range = true := by
  induction n generalizing r with
  | zero => exact h
  | succ n ih =>
    simp only [readUTF16Units]
    exact ih _ (readPrimitive_flag 2 r h)

/-- If fewer than `2 * n` bytes remain, a run of `n` unconditional
2-byte unit reads latches the out-of-range flag. -/
theorem readUTF16Units_latch (n : Nat) (r : BuffReader)
    (hc : r.cur_index ≤ r.buff.length)
    (hn : r.buff.length < r.cur_index + 2 * n) :
    ((readUTF16Units n r).2).out_of_range = true := by
  induction n generalizing r with
  | zero => omega
  | succ n ih =>
    simp only [readUTF16Units]
    by_cases hg : r.cur_index + 2 ≤ r.buff.length
    · have hread : readPrimitive 2 r =
          (beVal ((r.buff.drop r.cur_index).take 2),
           { r with cur_index := r.cur_index + 2 }) := by
        unfold readPrimitive
        rw [if_pos hg]
      rw [hread]
      exact ih { r with cur_index := r.cur_index + 2 } (by simpa using hg)
        (by simp; omega)
    · have hread : readPrimitive 2 r = (0, { r with out_of_range := true }) := by
        unfold readPrimitive
        rw [if_neg hg]
      rw [hread]
      exact readUTF16Units_flag n _ rfl

/-! ### World-model protocol, client face (world_model_protocol.cpp)

`world_model::client::MessageID`: keep_alive 0, snapshot_request 1,
range_request 2, stream_request 3, attribute_alias 4, origin_alias 5,
request_complete 6, cancel_request 7, data_response 8, uri_search 9,
uri_response 10, origin_preference 11. -/

namespace client

/-- `world_model::client::Request`.  In C++ a default-initialized
`Request` leaves `start`/`stop_period` indeterminate; the model uses 0
(no claim depends on those fields of a failed decode). -/
structure Request where
  object_uri : List Nat
  attributes : List (List Nat)
  start : Int
  stop_period : Int
deriving DecidableEq, Repr

/-- The empty/default `client::Request()`. -/
def Request.empty : Request :=
  { object_uri := [], attributes := [], start := 0, stop_period := 0 }

/-- Concatenation of `pushBackSizedUTF16` calls for the attribute list
of a request. -/
def attrsBytes : List (List Nat) → List Nat
  | [] => []
  | a :: rest => sizedUTF16Bytes a ++ attrsBytes rest

/-- `client::makeSnapshotRequest`: length placeholder, MessageID 1,
ticket, sized URI, attribute count, sized attributes, start, stop;
finally the accumulated `total_length` is written over the first four
bytes.  The C++ accumulator is a `uint32_t`; `writeLen`/`beBytes`
truncate mod `2^32` exactly as the 4-byte store does. -/
def makeSnapshotRequest (request : Request) (ticket : Nat) : List Nat :=
  let attrs := attrsBytes request.attributes
  let total_length :=
    1 + 4 + (4 + 2 * request.object_uri.length) + 4 + attrs.length + 8 + 8
  writeLen total_length
    (beBytes 4 0 ++ beBytes 1 1 ++ beBytes 4 ticket ++
     sizedUTF16Bytes request.object_uri ++
     beBytes 4 request.attributes.length ++ attrs ++
     i64Bytes request.start ++ i64Bytes request.stop_period)

/-- The attribute loop of `client::decodeSnapshotRequest`:
`total_attributes` sized-UTF-16 reads. -/
def attrLoop : Nat → BuffReader → List (List Nat) × BuffReader
  | 0, r => ([], r)
  | n + 1, r =>
    let p := readSizedUTF16 r
    let q := attrLoop n p.2
    (p.1 :: q.1, q.2)

/-- `client::decodeSnapshotRequest` instrumented with the final reader
state, so the latched out-of-range flag is observable.  The outer
check compares `buff.size()` with the `uint32_t` sum
`total_length + 4` (which wraps).  On out-of-range the C++ returns
`(Request(), ticket)` - note: the ticket already parsed, not 0. -/
def decodeSnapshotRequestR (buff : List Nat) : (Request × Nat) × BuffReader :=
  let r0 := BuffReader.init buff
  let p1 := readPrimitive 4 r0
  let p2 := readPrimitive 1 p1.2
  if buff.length = (p1.1 + 4) % 2 ^ 32 ∧ p2.1 = 1 then
    let pt := readPrimitive 4 p2.2
    let pu := readSizedUTF16 pt.2
    let pn := readPrimitive 4 pu.2
    let pa := attrLoop pn.1 pn.2
    let ps := readPrimitive 8 pa.2
    let pp := readPrimitive 8 ps.2
    if pp.2.out_of_range then ((Request.empty, pt.1), pp.2)
    else (({ object_uri := pu.1, attributes := pa.1,
             start := i64OfNat ps.1, stop_period := i64OfNat pp.1 }, pt.1), pp.2)
  else
    ((Request.empty, 0), p2.2)

/-- `client::decodeSnapshotRequest` proper. -/
def decodeSnapshotRequest (buff : List Nat) : Request × Nat :=
  (decodeSnapshotRequestR buff).1

/-- `client::decodeRangeRequest`: if the buffer has at least 5 bytes
and byte 4 is the range_request id (2), overwrite byte 4 with the
snapshot_request id (1) in place and delegate; the pair's second
component is the caller's buffer after the call (the mutation
persists, `decodeSnapshotRequest` itself never writes). -/
def decodeRangeRequest (buff : List Nat) : (Request × Nat) × List Nat :=
  if 5 ≤ buff.length ∧ buff.getD 4 0 = 2 then
    let patched := buff.set 4 1
    (decodeSnapshotRequest patched, patched)
  else
    ((Request.empty, 0), buff)

/-- `world_model::AliasedAttribute`. -/
structure AliasedAttribute where
  name_alias : Nat
  creation_date : Int
  expiration_date : Int
  origin_alias : Nat
  data : List Nat
deriving DecidableEq, Repr

/-- `world_model::AliasedWorldData`. -/
structure AliasedWorldData where
  object_uri : List Nat
  attributes : List AliasedAttribute
deriving DecidableEq, Repr

/-- The empty/default `AliasedWorldData()`. -/
def AliasedWorldData.empty : AliasedWorldData :=
  { object_uri := [], attributes := [] }

/-- The attribute loop of `client::decodeDataMessage`: per attribute a
`uint32_t` name alias, two `grail_time`s, a `uint32_t` origin alias
and a sized `uint8_t` vector. -/
def dataAttrLoop : Nat → BuffReader → List AliasedAttribute × BuffReader
  | 0, r => ([], r)
  | n + 1, r =>
    let pn := readPrimitive 4 r
    let pc := readPrimitive 8 pn.2
    let pe := readPrimitive 8 pc.2
    let po := readPrimitive 4 pe.2
    let pd := readSizedVector 1 po.2
    let q := dataAttrLoop n pd.2
    ({ name_alias := pn.1, creation_date := i64OfNat pc.1,
       expiration_date := i64OfNat pe.1, origin_alias := po.1,
       data := pd.1 } :: q.1, q.2)

/-- `client::decodeDataMessage` instrumented with the final reader
state. -/
def decodeDataMessageR (buff : List Nat) :
    (AliasedWorldData × Nat) × BuffReader :=
  let r0 := BuffReader.init buff
  let p1 := readPrimitive 4 r0
  let p2 := readPrimitive 1 p1.2
  let st :=
    if buff.length = (p1.1 + 4) % 2 ^ 32 ∧ p2.1 = 8 then
      let pu := readSizedUTF16 p2.2
      let pt := readPrimitive 4 pu.2
      let pn := readPrimitive 4 pt.2
      let pa := dataAttrLoop pn.1 pn.2
      (({ object_uri := pu.1, attributes := pa.1 }, pt.1), pa.2)
    else
      ((AliasedWorldData.empty, 0), p2.2)
  if st.2.out_of_range then ((AliasedWorldData.empty, 0), st.2) else st

/-- `client::decodeDataMessage` proper. -/
def decodeDataMessage (buff : List Nat) : AliasedWorldData × Nat :=
  (decodeDataMessageR buff).1

/-- Concatenation of `pushBackSizedUTF16` calls in
`client::makeURISearchResponse`. -/
def urisBytes : List (List Nat) → List Nat
  | [] => []
  | u :: rest => sizedUTF16Bytes u ++ urisBytes rest

/-- `client::makeURISearchResponse`: length placeholder, MessageID 10,
then the sized URIs concatenated.  No URI count is written. -/
def makeURISearchResponse (uris : List (List Nat)) : List Nat :=
  let body := urisBytes uris
  let total_length := 1 + body.length
  writeLen total_length (beBytes 4 0 ++ beBytes 1 10 ++ body)

/-- The URI loop of `client::decodeURISearchResponse`. -/
def uriLoop : Nat → BuffReader → List (List Nat) × BuffReader
  | 0, r => ([], r)
  | n + 1, r =>
    let p := readSizedUTF16 r
    let q := uriLoop n p.2
    (p.1 :: q.1, q.2)

/-- `client::decodeURISearchResponse`: after the header it reads a
`uint32_t` URI count and then that many sized URIs; on out-of-range
the empty list is returned. -/
def decodeURISearchResponse (buff : List Nat) : List (List Nat) :=
  let r0 := BuffReader.init buff
  let p1 := readPrimitive 4 r0
  let p2 := readPrimitive 1 p1.2
  let st :=
    if buff.length = (p1.1 + 4) % 2 ^ 32 ∧ p2.1 = 10 then
      let pn := readPrimitive 4 p2.2
      let pu := uriLoop pn.1 pn.2
      (pu.1, pu.2)
    else
      ([], p2.2)
  if st.2.out_of_range then [] else st.1

end client

/-! ### World-model protocol, solver face (world_model_protocol.cpp)

`world_model::solver::MessageID`: keep_alive 0, type_announce 1,
start_on_demand 2, stop_on_demand 3, solver_data 4, create_uri 5,
expire_uri 6, delete_uri 7, expire_attribute 8, delete_attribute 9. -/

namespace solver

/-- `world_model::solver::SolutionData`. -/
structure SolutionData where
  type_alias : Nat
  time : Int
  target : List Nat
  data : List Nat
deriving DecidableEq, Repr

/-- On-wire image of one solution inside `makeSolutionMsg`:
`uint32_t` type alias, `grail_time`, sized UTF-16 target, sized
`uint8_t` data. -/
def solBytes (s : SolutionData) : List Nat :=
  beBytes 4 s.type_alias ++ i64Bytes s.time ++
  sizedUTF16Bytes s.target ++ sizedBlobBytes s.data

/-- Concatenation of the per-solution pushes of `makeSolutionMsg`. -/
def solListBytes : List SolutionData → List Nat
  | [] => []
  | s :: rest => solBytes s ++ solListBytes rest

/-- `solver::makeSolutionMsg`: length placeholder, MessageID 4, the
`create_uris` byte (1 or 0), a `uint32_t` solution count, then each
solution; finally the accumulated `total_length` (a `uint32_t`,
truncated mod `2^32` by the 4-byte store) is written over the first
four bytes. -/
def makeSolutionMsg (create_uris : Bool) (solutions : List SolutionData) :
    List Nat :=
  let body := solListBytes solutions
  let total_length := 1 + 1 + 4 + body.length
  writeLen total_length
    (beBytes 4 0 ++ beBytes 1 4 ++ beBytes 1 (if create_uris then 1 else 0) ++
     beBytes 4 solutions.length ++ body)

/-- The solution loop of `solver::decodeSolutionMsg` (counts the
`uint32_t` solution count down to zero). -/
def solLoop : Nat → BuffReader → List SolutionData × BuffReader
  | 0, r => ([], r)
  | n + 1, r =>
    let pa := readPrimitive 4 r
    let pt := readPrimitive 8 pa.2
    let pg := readSizedUTF16 pt.2
    let pd := readSizedVector 1 pg.2
    let q := solLoop n pd.2
    ({ type_alias := pa.1, time := i64OfNat pt.1,
       target := pg.1, data := pd.1 } :: q.1, q.2)

/-- `solver::decodeSolutionMsg`: header checks (declared length vs
buffer size, MessageID 4), then the create byte, count and solutions;
if the reader latched out-of-range, `(false, [])` is returned. -/
def decodeSolutionMsg (buff : List Nat) : Bool × List SolutionData :=
  let r0 := BuffReader.init buff
  let p1 := readPrimitive 4 r0
  let p2 := readPrimitive 1 p1.2
  let st :=
    if buff.length = (p1.1 + 4) % 2 ^ 32 ∧ p2.1 = 4 then
      let pc := readPrimitive 1 p2.2
      let pn := readPrimitive 4 pc.2
      let ps := solLoop pn.1 pn.2
      ((decide (pc.1 = 1), ps.1), ps.2)
    else
      ((false, []), p2.2)
  if st.2.out_of_range then (false, []) else st.1

/-- The inner pattern loop of `solver::decodeStartOnDemand`. -/
def patternLoop : Nat → BuffReader → List (List Nat) × BuffReader
  | 0, r => ([], r)
  | n + 1, r =>
    let p := readSizedUTF16 r
    let q := patternLoop n p.2
    (p.1 :: q.1, q.2)

/-- The alias-group loop of `solver::decodeStartOnDemand`: per group a
`uint32_t` alias, a `uint32_t` pattern count and that many sized
UTF-16 patterns. -/
def onDemandLoop : Nat → BuffReader → List (Nat × List (List Nat)) × BuffReader
  | 0, r => ([], r)
  | n + 1, r =>
    let pa := readPrimitive 4 r
    let pc := readPrimitive 4 pa.2
    let pp := patternLoop pc.1 pc.2
    let q := onDemandLoop n pp.2
    ((pa.1, pp.1) :: q.1, q.2)

/-- `solver::decodeStartOnDemand`. -/
def decodeStartOnDemand (buff : List Nat) : List (Nat × List (List Nat)) :=
  let r0 := BuffReader.init buff
  let p1 := readPrimitive 4 r0
  let p2 := readPrimitive 1 p1.2
  let st :=
    if buff.length = (p1.1 + 4) % 2 ^ 32 ∧ p2.1 = 2 then
      let pn := readPrimitive 4 p2.2
      onDemandLoop pn.1 pn.2
    else
      ([], p2.2)
  if st.2.out_of_range then [] else st.1

/-- `solver::decodeStopOnDemand`: reads the header with a fresh
reader; for a well-formed stop_on_demand frame (declared length
matches, MessageID 3) it overwrites byte 4 with the start_on_demand id
(2) in place and delegates to `decodeStartOnDemand` on the mutated
buffer.  The second component is the caller's buffer after the
call. -/
def decodeStopOnDemandR (buff : List Nat) :
    List (Nat × List (List Nat)) × List Nat :=
  let r0 := BuffReader.init buff
  let p1 := readPrimitive 4 r0
  let p2 := readPrimitive 1 p1.2
  if buff.length = (p1.1 + 4) % 2 ^ 32 ∧ p2.1 = 3 then
    let patched := buff.set 4 2
    (decodeStartOnDemand patched, patched)
  else
    ([], buff)

end solver

/-! ### Aggregator-solver protocol (aggregator_solver_protocol.cpp)

`aggregator_solver::MessageID`: keep_alive 0, certificate 1,
ack_certificate 2, subscription_request 3, subscription_response 4,
device_position 5, server_sample 6, buffer_overrun 7. -/

namespace aggregator_solver

/-- `aggregator_solver::Transmitter`: a 128-bit base id and mask, each
read as one 16-byte `readPrimitive<uint128_t>` (value
`upper * 2^64 + lower`). -/
structure Transmitter where
  base_id : Nat
  mask : Nat
deriving DecidableEq, Repr

/-- `aggregator_solver::Rule`. -/
structure Rule where
  physical_layer : Nat
  txers : List Transmitter
  update_interval : Nat
deriving DecidableEq, Repr

/-- The transmitter loop of `decodeSubscribeMsg`. -/
def txerLoop : Nat → BuffReader → List Transmitter × BuffReader
  | 0, r => ([], r)
  | n + 1, r =>
    let pb := readPrimitive 16 r
    let pm := readPrimitive 16 pb.2
    let q := txerLoop n pm.2
    ({ base_id := pb.1, mask := pm.1 } :: q.1, q.2)

/-- The rule loop of `decodeSubscribeMsg`: per rule a `uint8_t`
physical layer, a `uint32_t` transmitter count, the transmitters and a
`uint64_t` update interval.  The rule is pushed back regardless of any
read failure. -/
def ruleLoop : Nat → BuffReader → List Rule × BuffReader
  | 0, r => ([], r)
  | n + 1, r =>
    let pp := readPrimitive 1 r
    let pn := readPrimitive 4 pp.2
    let pt := txerLoop pn.1 pn.2
    let pu := readPrimitive 8 pt.2
    let q := ruleLoop n pu.2
    ({ physical_layer := pp.1, txers := pt.1,
       update_interval := pu.1 } :: q.1, q.2)

/-- `aggregator_solver::decodeSubscribeMsg(buff, length)`: guarded by
`length > 4`; header check `entire_length + 4 == length` (`uint32_t`
arithmetic) and MessageID 3 or 4.  Note: the reader's out-of-range
flag is never consulted; whatever rules were (partially) read are
returned. -/
def decodeSubscribeMsg (buff : List Nat) (length : Nat) : List Rule :=
  if 4 < length then
    let r0 := BuffReader.init buff
    let p1 := readPrimitive 4 r0
    let p2 := readPrimitive 1 p1.2
    if (p1.1 + 4) % 2 ^ 32 = length ∧ (p2.1 = 3 ∨ p2.1 = 4) then
      let pn := readPrimitive 4 p2.2
      (ruleLoop pn.1 pn.2).1
    else []
  else []

/-- `SampleData` (sample_data.hpp).  `rss` is kept as the 32-bit
big-endian bit pattern of the float.  A default-initialized C++
`SampleData` leaves the numeric fields indeterminate; the model uses
zeros (no claim depends on them). -/
structure SampleData where
  physical_layer : Nat
  tx_id : Nat
  rx_id : Nat
  rx_timestamp : Int
  rss : Nat
  sense_data : List Nat
  valid : Bool
deriving DecidableEq, Repr

/-- The default `SampleData` with `valid` already forced to false, as
at the top of `decodeSampleMsg`. -/
def SampleData.invalid : SampleData :=
  { physical_layer := 0, tx_id := 0, rx_id := 0, rx_timestamp := 0,
    rss := 0, sense_data := [], valid := false }

/-- `aggregator_solver::decodeSampleMsg(buff, length)` instrumented
with the reader's final out-of-range flag (false when no reader was
created).  `valid` is set to true as soon as the header checks pass;
the out-of-range flag is never consulted.  The sense data is read into
a zero-filled vector of `length - cur_index` bytes via
`readPrimitiveContainer` (the C++ difference is unsigned; the model's
truncated subtraction agrees whenever `cur_index ≤ length`). -/
def decodeSampleMsgR (buff : List Nat) (length : Nat) : SampleData × Bool :=
  if 4 < length then
    let r0 := BuffReader.init buff
    let p1 := readPrimitive 4 r0
    let p2 := readPrimitive 1 p1.2
    if (p1.1 + 4) % 2 ^ 32 = length ∧ p2.1 = 6 then
      let pp := readPrimitive 1 p2.2
      let pt := readPrimitive 16 pp.2
      let pr := readPrimitive 16 pt.2
      let ps := readPrimitive 8 pr.2
      let pf := readPrimitive 4 ps.2
      let left := length - pf.2.cur_index
      let pd := readPrimContainer 1 left pf.2
      ({ physical_layer := pp.1, tx_id := pt.1, rx_id := pr.1,
         rx_timestamp := i64OfNat ps.1, rss := pf.1,
         sense_data := pd.1, valid := true }, pd.2.out_of_range)
    else (SampleData.invalid, p2.2.out_of_range)
  else (SampleData.invalid, false)

/-- `aggregator_solver::decodeSampleMsg` proper. -/
def decodeSampleMsg (buff : List Nat) (length : Nat) : SampleData :=
  (decodeSampleMsgR buff length).1

/-- The header condition under which `decodeSampleMsg` marks the
sample valid: `length > 4`, declared length matches, MessageID 6. -/
def sampleHeaderOk (buff : List Nat) (length : Nat) : Prop :=
  4 < length ∧
    (let r0 := BuffReader.init buff
     let p1 := readPrimitive 4 r0
     let p2 := readPrimitive 1 p1.2
     (p1.1 + 4) % 2 ^ 32 = length ∧ p2.1 = 6)

instance (buff : List Nat) (length : Nat) :
    Decidable (sampleHeaderOk buff length) := by
  unfold sampleHeaderOk
  infer_instance

end aggregator_solver

/-! ### Message framer (message_receiver.cpp) -/

namespace MessageReceiver

/-- One outcome of `sock.receive` inside the framer loops: data
appended to `previous_unfinished`, an EAGAIN/EWOULDBLOCK retry, or a
closed/error outcome that raises. -/
inductive RecvEvent where
  | chunk (data : List Nat)
  | wouldBlock
  | closed
deriving DecidableEq, Repr

/-- `readPrimitive<uint32_t>(previous_unfinished, 0) + 4` as computed
into the `uint32_t` local `piece_length` - the sum wraps mod `2^32`. -/
def pieceLength (pending : List Nat) : Nat :=
  (readPrimitiveAt 4 pending 0 + 4) % 2 ^ 32

/-- The condition of the `while` loop in
`MessageReceiver::getNextMessage`:
`not interrupted and (size < 4 or size < piece_length)` (the
`piece_length` local is recomputed from the first four pending bytes
whenever at least 4 bytes are present, and the `size < 4` disjunct
covers the case where it is stale). -/
def needMore (interrupted : Bool) (pending : List Nat) : Prop :=
  interrupted = false ∧
    (pending.length < 4 ∨ pending.length < pieceLength pending)

instance (interrupted : Bool) (pending : List Nat) :
    Decidable (needMore interrupted pending) := by
  unfold needMore
  infer_instance

/-- The receive loop of `MessageReceiver::getNextMessage`.  While the
loop condition holds it appends received chunks, sleeps through
would-block results, and throws on a closed connection (`none`).
`none` is also returned if the event supply is exhausted while the
loop still needs data (the call would keep blocking). -/
def recvLoop (interrupted : Bool) :
    List RecvEvent → List Nat → Option (List Nat)
  | [], pending =>
    if needMore interrupted pending then none else some pending
  | RecvEvent.chunk d :: rest, pending =>
    if needMore interrupted pending then recvLoop interrupted rest (pending ++ d)
    else some pending
  | RecvEvent.wouldBlock :: rest, pending =>
    if needMore interrupted pending then recvLoop interrupted rest pending
    else some pending
  | RecvEvent.closed :: _, pending =>
    if needMore interrupted pending then none else some pending

theorem recvLoop_done (interrupted : Bool) (evs : List RecvEvent)
    (pending : List Nat) (h : ¬ needMore interrupted pending) :
    recvLoop interrupted evs pending = some pending := by
  cases evs with
  | nil => rw [recvLoop, if_neg h]
  | cons ev rest =>
    cases ev with
    | chunk d => rw [recvLoop, if_neg h]
    | wouldBlock => rw [recvLoop, if_neg h]
    | closed => rw [recvLoop, if_neg h]

/-- `MessageReceiver::getNextMessage`: after the loop, an interrupted
call returns an empty buffer (retaining `pending`); otherwise the
first `piece_length` bytes are split off and the remainder (or
nothing) is retained.  The result pairs the returned frame with the
retained `previous_unfinished`. -/
def getNextMessage (evs : List RecvEvent) (pending : List Nat)
    (interrupted : Bool) : Option (List Nat × List Nat) :=
  match recvLoop interrupted evs pending with
  | none => none
  | some p =>
    if interrupted then some ([], p)
    else
      let piece := pieceLength p
      some (p.take piece, if piece < p.length then p.drop piece else [])

/-- `MessageReceiver::messageAvailable`: result, retained pending
buffer, and whether any socket operation (the 10 ms `inputReady` poll
or a `receive`) was performed; `none` models the thrown
`runtime_error` on a closed connection.  When the guard
`not interrupted and (size < 4 or size < piece_length)` fails, the
function skips all I/O and returns whether a whole frame is already
buffered. -/
def messageAvailable (pending : List Nat) (interrupted : Bool)
    (ready : Bool) (ev : RecvEvent) :
    Option (Bool × List Nat × Bool) :=
  let piece0 := if 4 ≤ pending.length then pieceLength pending else 0
  if interrupted = false ∧
      (pending.length < 4 ∨ pending.length < piece0) then
    if ready = false then some (false, pending, true)
    else
      match ev with
      | RecvEvent.wouldBlock => some (false, pending, true)
      | RecvEvent.closed => none
      | RecvEvent.chunk d =>
        let p := pending ++ d
        some (decide (pieceLength p ≤ p.length), p, true)
  else
    some (decide (pieceLength pending ≤ pending.length), pending, false)

end MessageReceiver

/-! ### Helper lemmas for in-place byte patching -/

theorem getD_set_at (l : List Nat) (i v : Nat) (h : i < l.length) :
    (l.set i v).getD i 0 = v := by
  induction l generalizing i with
  | nil => simp at h
  | cons a l ih =>
    cases i with
    | zero => rfl
    | succ i =>
      simp only [List.set, List.getD, List.get?]
      have := ih i (by simpa using h)
      simpa [List.getD] using this

theorem getD_set_other (l : List Nat) (i j v : Nat) (h : i ≠ j) :
    (l.set i v).getD j 0 = l.getD j 0 := by
  induction l generalizing i j with
  | nil => simp
  | cons a l ih =>
    cases i with
    | zero =>
      cases j with
      | zero => omega
      | succ j => rfl
    | succ i =>
      cases j with
      | zero => rfl
      | succ j =>
        simp only [List.set, List.getD, List.get?]
        have := ih i j (by omega)
        simpa [List.getD] using this

/-! ### Helper lemmas for the final out-of-range checks of decoders -/

theorem finalFlagCheck {α : Type _} (st : α × BuffReader) (e : α)
    (h : ((if st.2.out_of_range then (e, st.2) else st).2).out_of_range = true) :
    (if st.2.out_of_range then (e, st.2) else st).1 = e := by
  by_cases hf : st.2.out_of_range
  · rw [if_pos hf]
  · rw [if_neg hf] at h
    exact absurd h hf

theorem innerFlagCheck {α : Type _} (x : BuffReader) (a b : α)
    (h : ((if x.out_of_range then (a, x) else (b, x)).2).out_of_range = true) :
    (if x.out_of_range then (a, x) else (b, x)).1 = a := by
  by_cases hf : x.out_of_range
  · rw [if_pos hf]
  · rw [if_neg hf] at h
    exact absurd h hf

/-! ## Claim theorems -/

/-- C5 (counterexample): after `readPrimitive<uint32_t>` fails on the
1-byte buffer `[171]`, the out-of-range flag is latched but the cursor
stays at 0 - it is not pinned to end-of-buffer - and a subsequent
1-byte read succeeds and returns byte 171, not zero. -/
theorem C5_counterexample :
    ((readPrimitive 4 (BuffReader.init [171])).2).out_of_range = true ∧
    ((readPrimitive 4 (BuffReader.init [171])).2).cur_index = 0 ∧
    ((readPrimitive 4 (BuffReader.init [171])).2).cur_index ≠
      ([171] : List Nat).length ∧
    (readPrimitive 1 ((readPrimitive 4 (BuffReader.init [171])).2)).1 = 171 ∧
    (readPrimitive 1 ((readPrimitive 4 (BuffReader.init [171])).2)).1 ≠ 0 := by
  decide

/-- C5 (amended): when fewer than `w` bytes remain,
`BuffReader::readPrimitive` returns zero, latches the out-of-range
flag and leaves the cursor unchanged (it is not pinned to
end-of-buffer); the flag is never cleared by any later read, but a
later read of a type that still fits the remaining bytes succeeds
normally. -/
theorem C5_read_past_end (r : BuffReader) (w : Nat)
    (h : r.buff.length < r.cur_index + w) :
    readPrimitive w r = (0, { r with out_of_range := true }) ∧
    ((readPrimitive w r).2).cur_index = r.cur_index ∧
    ∀ w2 : Nat,
      ((readPrimitive w2 ((readPrimitive w r).2)).2).out_of_range = true := by
  have hneg : ¬ (r.cur_index + w ≤ r.buff.length) := by omega
  have h1 : readPrimitive w r = (0, { r with out_of_range := true }) := by
    unfold readPrimitive
    rw [if_neg hneg]
  refine ⟨h1, by rw [h1], fun w2 => ?_⟩
  rw [h1]
  exact readPrimitive_flag w2 _ rfl

/-- C5 (witness): the amended theorem applied at the concrete
exhausted read of `C5_counterexample`. -/
theorem C5_read_past_end_witness :
    ([171] : List Nat).length < 0 + 4 ∧
    readPrimitive 4 (BuffReader.init [171]) =
      (0, { BuffReader.init [171] with out_of_range := true }) ∧
    ((readPrimitive 1 ((readPrimitive 4 (BuffReader.init [171])).2)).2).out_of_range
      = true :=
  ⟨by decide, (C5_read_past_end (BuffReader.init [171]) 4 (by decide)).1,
   (C5_read_past_end (BuffReader.init [171]) 4 (by decide)).2.2 1⟩

/-- C6 (counterexample): reading a sized UTF-16 string from
`[0,0,0,3,0,65]` yields the odd byte length L = 3, and the buffer does
not contain 3 further bytes after the prefix, yet the out-of-range
flag is not latched: the decoder reads `L / 2 = 1` code unit and
silently ignores the odd final byte. -/
theorem C6_counterexample :
    (readPrimitive 4 (BuffReader.init [0, 0, 0, 3, 0, 65])).1 = 3 ∧
    (readPrimitive 4 (BuffReader.init [0, 0, 0, 3, 0, 65])).1 % 2 = 1 ∧
    ([0, 0, 0, 3, 0, 65] : List Nat).length <
      ((readPrimitive 4 (BuffReader.init [0, 0, 0, 3, 0, 65])).2).cur_index +
        (readPrimitive 4 (BuffReader.init [0, 0, 0, 3, 0, 65])).1 ∧
    ((readSizedUTF16 (BuffReader.init [0, 0, 0, 3, 0, 65])).2).out_of_range
      = false := by
  decide

/-- C6 (amended): `BuffReader::readSizedUTF16` latches the
out-of-range flag iff a read actually overruns: when the 4-byte
length prefix itself cannot be read, or when fewer than
`2 * (L / 2)` bytes follow the prefix.  An odd `L` alone does not
latch the flag; the final odd byte is ignored. -/
theorem C6_sized_utf16_latch (r : BuffReader)
    (h : ((readPrimitive 4 r).2).out_of_range = true ∨
         r.buff.length <
           ((readPrimitive 4 r).2).cur_index +
             2 * ((readPrimitive 4 r).1 / 2)) :
    ((readSizedUTF16 r).2).out_of_range = true := by
  have hgoal : readSizedUTF16 r =
      readUTF16Units ((readPrimitive 4 r).1 / 2) ((readPrimitive 4 r).2) := rfl
  rw [hgoal]
  rcases h with hflag | hshort
  · exact readUTF16Units_flag _ _ hflag
  · by_cases hg : r.cur_index + 4 ≤ r.buff.length
    · have hread : (readPrimitive 4 r).2 = { r with cur_index := r.cur_index + 4 } := by
        unfold readPrimitive
        rw [if_pos hg]
      rw [hread] at hshort ⊢
      exact readUTF16Units_latch _ _ (by simpa using hg) (by simpa using hshort)
    · have hread : (readPrimitive 4 r).2 = { r with out_of_range := true } := by
        unfold readPrimitive
        rw [if_neg hg]
      rw [hread]
      exact readUTF16Units_flag _ _ rfl

/-- C6 (witness): the amended theorem at a buffer whose prefix
declares 9 bytes while only 2 remain. -/
theorem C6_sized_utf16_latch_witness :
    ([0, 0, 0, 9, 0, 65] : List Nat).length <
      ((readPrimitive 4 (BuffReader.init [0, 0, 0, 9, 0, 65])).2).cur_index +
        2 * ((readPrimitive 4 (BuffReader.init [0, 0, 0, 9, 0, 65])).1 / 2) ∧
    ((readSizedUTF16 (BuffReader.init [0, 0, 0, 9, 0, 65])).2).out_of_range
      = true :=
  ⟨by decide, C6_sized_utf16_latch _ (Or.inr (by decide))⟩

/-- C8 (counterexample): with `interrupted` set on entry and a
complete frame (`[0,0,0,1,0]`, declared length 1) already pending,
`MessageReceiver::messageAvailable` performs no socket operation but
returns true, not false. -/
theorem C8_counterexample :
    MessageReceiver.messageAvailable [0, 0, 0, 1, 0] true true
        (MessageReceiver.RecvEvent.chunk [1, 2, 3]) =
      some (true, [0, 0, 0, 1, 0], false) ∧
    (true : Bool) ≠ false := by
  decide

/-- C8 (amended): if `interrupted` is set on entry,
`MessageReceiver::messageAvailable` performs no socket I/O - the
result is the same for every poll outcome and receive event - and
returns whether `pending` already holds a complete frame
(`piece_length <= pending.size()`), leaving `pending` untouched. -/
theorem C8_interrupted_no_io (pending : List Nat) (ready : Bool)
    (ev : MessageReceiver.RecvEvent) :
    MessageReceiver.messageAvailable pending true ready ev =
      some (decide (MessageReceiver.pieceLength pending ≤ pending.length),
            pending, false) := by
  unfold MessageReceiver.messageAvailable
  simp

/-- C9 (counterexample): the snapshot_request of the spec scenario
(ticket 7, URI "lamp.*", attributes "location" and "on", start 1000,
stop 2000) does not encode to 79 bytes. -/
theorem C9_counterexample :
    (client.makeSnapshotRequest
        { object_uri := [108, 97, 109, 112, 46, 42],
          attributes := [[108, 111, 99, 97, 116, 105, 111, 110], [111, 110]],
          start := 1000, stop_period := 2000 } 7).length ≠ 79 := by
  decide

/-- C9 (amended): that snapshot_request encodes to exactly 73 bytes
(the spec's own summand list `4+1+4+(4+12)+4+(4+16)+(4+4)+8+8` totals
73, not 79) and its byte at offset 4 is the snapshot_request
MessageID 1. -/
theorem C9_snapshot_frame :
    (client.makeSnapshotRequest
        { object_uri := [108, 97, 109, 112, 46, 42],
          attributes := [[108, 111, 99, 97, 116, 105, 111, 110], [111, 110]],
          start := 1000, stop_period := 2000 } 7).length = 73 ∧
    (client.makeSnapshotRequest
        { object_uri := [108, 97, 109, 112, 46, 42],
          attributes := [[108, 111, 99, 97, 116, 105, 111, 110], [111, 110]],
          start := 1000, stop_period := 2000 } 7).getD 4 0 = 1 := by
  decide

/-- C3: the claimed round-trip fails because
`client::makeURISearchResponse` writes no URI count while
`client::decodeURISearchResponse` reads one; on the singleton list
containing the empty URI, the decoder consumes the URI's length
prefix as a zero count and returns the empty list. -/
theorem C3_uri_response_mismatch :
    client.decodeURISearchResponse (client.makeURISearchResponse [[]]) = [] ∧
    ([[]] : List (List Nat)) ≠ [] := by
  decide

/-- C4 (counterexample): two length-consistent frames with
unsatisfied embedded counts that are not rejected whole.  A
subscription frame declaring one rule with no rule bytes makes
`decodeSubscribeMsg` return one zero-filled rule instead of an empty
`Subscription`; a data_response frame whose sized byte blob declares
9 bytes with 1 remaining makes `decodeDataMessage` return the
truncated attribute and its real ticket instead of
`(empty, 0)`. -/
theorem C4_counterexample :
    aggregator_solver.decodeSubscribeMsg [0, 0, 0, 5, 3, 0, 0, 0, 1] 9 ≠ [] ∧
    client.decodeDataMessage
        [0, 0, 0, 42, 8, 0, 0, 0, 0, 0, 0, 0, 1, 0, 0, 0, 1, 0, 0, 0, 2,
         0, 0, 0, 0, 0, 0, 0, 0, 0, 0, 0, 0, 0, 0, 0, 0, 0, 0, 0, 3,
         0, 0, 0, 9, 7] ≠
      (client.AliasedWorldData.empty, 0) := by
  decide

/-- C4 (amended): `client::decodeDataMessage` does reject the message
whole - returning the empty `AliasedWorldData` and ticket 0 -
whenever parsing latched the reader's out-of-range flag (as an
unsatisfied attribute count does through its fixed-width reads); but
`aggregator_solver::decodeSubscribeMsg` never consults the flag and
returns partially-zero-filled rules, and a sized-byte-blob length
exceeding the remaining bytes only truncates the blob without
latching the flag, so such frames are not rejected. -/
theorem C4_data_reject_on_latch (buff : List Nat)
    (h : ((client.decodeDataMessageR buff).2).out_of_range = true) :
    client.decodeDataMessage buff = (client.AliasedWorldData.empty, 0) := by
  unfold client.decodeDataMessage
  unfold client.decodeDataMessageR at h ⊢
  dsimp only at h ⊢
  exact finalFlagCheck _ _ h

/-- C4 (witness): a data_response frame declaring two attributes with
bytes for none latches the flag, and the amended theorem yields the
empty result. -/
theorem C4_data_reject_on_latch_witness :
    ((client.decodeDataMessageR
        [0, 0, 0, 13, 8, 0, 0, 0, 0, 0, 0, 0, 5, 0, 0, 0, 2]).2).out_of_range
      = true ∧
    client.decodeDataMessage
        [0, 0, 0, 13, 8, 0, 0, 0, 0, 0, 0, 0, 5, 0, 0, 0, 2] =
      (client.AliasedWorldData.empty, 0) :=
  ⟨by decide, C4_data_reject_on_latch _ (by decide)⟩

/-- C1 (counterexample): a server_sample frame whose fixed-width
fields overrun the buffer (`[0,0,0,6,6,1,2,3,4,5]` with length 10)
latches out-of-range during parsing yet `decodeSampleMsg` returns the
sample with `valid = true`; and a snapshot_request frame truncated
after its ticket (`[0,0,0,6,1,0,0,0,7,0]`) latches out-of-range yet
`decodeSnapshotRequest` returns ticket 7, not 0. -/
theorem C1_counterexample :
    (aggregator_solver.decodeSampleMsgR [0, 0, 0, 6, 6, 1, 2, 3, 4, 5] 10).2
      = true ∧
    (aggregator_solver.decodeSampleMsg [0, 0, 0, 6, 6, 1, 2, 3, 4, 5] 10).valid
      = true ∧
    ((client.decodeSnapshotRequestR [0, 0, 0, 6, 1, 0, 0, 0, 7, 0]).2).out_of_range
      = true ∧
    (client.decodeSnapshotRequest [0, 0, 0, 6, 1, 0, 0, 0, 7, 0]).2 = 7 := by
  decide

/-- C1 (amended): when out-of-range is latched during parsing,
`client::decodeSnapshotRequest` does return the empty `Request`, but
the ticket it returns alongside is whatever value was parsed before
the overrun (zero only if the ticket read itself failed); and
`aggregator_solver::decodeSampleMsg` never consults the flag at all:
`valid` is true exactly when the header checks (`length > 4`,
declared length + 4 = length, MessageID = server_sample) pass. -/
theorem C1_decode_failure_behavior (buff : List Nat) (length : Nat)
    (h : ((client.decodeSnapshotRequestR buff).2).out_of_range = true) :
    (client.decodeSnapshotRequest buff).1 = client.Request.empty ∧
    ((aggregator_solver.decodeSampleMsg buff length).valid ↔
      aggregator_solver.sampleHeaderOk buff length) := by
  constructor
  · unfold client.decodeSnapshotRequest
    unfold client.decodeSnapshotRequestR at h ⊢
    dsimp only at h ⊢
    by_cases hcond : buff.length =
        ((readPrimitive 4 (BuffReader.init buff)).1 + 4) % 2 ^ 32 ∧
        (readPrimitive 1 ((readPrimitive 4 (BuffReader.init buff)).2)).1 = 1
    · rw [if_pos hcond] at h ⊢
      have := innerFlagCheck _ _ _ h
      rw [this]
    · rw [if_neg hcond]
  · unfold aggregator_solver.decodeSampleMsg aggregator_solver.decodeSampleMsgR
      aggregator_solver.sampleHeaderOk
    dsimp only
    by_cases h4 : 4 < length
    · rw [if_pos h4]
      by_cases hhd : ((readPrimitive 4 (BuffReader.init buff)).1 + 4) % 2 ^ 32
            = length ∧
          (readPrimitive 1 ((readPrimitive 4 (BuffReader.init buff)).2)).1 = 6
      · rw [if_pos hhd]
        simp [h4, hhd.2]
        omega
      · rw [if_neg hhd]
        simp only [aggregator_solver.SampleData.invalid]
        constructor
        · intro hfalse
          exact absurd hfalse (by simp)
        · intro hok
          exact absurd ⟨hok.2.1, hok.2.2⟩ hhd
    · rw [if_neg h4]
      simp only [aggregator_solver.SampleData.invalid]
      constructor
      · intro hfalse
        exact absurd hfalse (by simp)
      · intro hok
        exact absurd hok.1 h4

/-- C1 (witness): the amended theorem at the truncated
snapshot_request of `C1_counterexample`. -/
theorem C1_decode_failure_behavior_witness :
    ((client.decodeSnapshotRequestR [0, 0, 0, 6, 1, 0, 0, 0, 7, 0]).2).out_of_range
      = true ∧
    (client.decodeSnapshotRequest [0, 0, 0, 6, 1, 0, 0, 0, 7, 0]).1
      = client.Request.empty ∧
    ((aggregator_solver.decodeSampleMsg [0, 0, 0, 6, 1, 0, 0, 0, 7, 0] 10).valid ↔
      aggregator_solver.sampleHeaderOk [0, 0, 0, 6, 1, 0, 0, 0, 7, 0] 10) :=
  ⟨by decide,
   (C1_decode_failure_behavior [0, 0, 0, 6, 1, 0, 0, 0, 7, 0] 10 (by decide)).1,
   (C1_decode_failure_behavior [0, 0, 0, 6, 1, 0, 0, 0, 7, 0] 10 (by decide)).2⟩

/-- C10: `client::decodeRangeRequest` on a buffer of at least 5 bytes
whose byte 4 is the range_request id (2) patches byte 4 to the
snapshot_request id (1) in place, delegates to the snapshot decoder,
changes no other byte, and the patched buffer is what the caller
retains; `solver::decodeStopOnDemand` does the same for a well-formed
stop_on_demand frame, patching byte 4 from 3 to the start_on_demand
id (2). -/
theorem C10_patch_in_place (buff buff2 : List Nat)
    (h5 : 5 ≤ buff.length) (h4 : buff.getD 4 0 = 2)
    (hlen2 : buff2.length =
      ((readPrimitive 4 (BuffReader.init buff2)).1 + 4) % 2 ^ 32)
    (hm2 : (readPrimitive 1 ((readPrimitive 4 (BuffReader.init buff2)).2)).1 = 3) :
    client.decodeRangeRequest buff =
      (client.decodeSnapshotRequest (buff.set 4 1), buff.set 4 1) ∧
    (buff.set 4 1).getD 4 0 = 1 ∧
    (∀ i, i ≠ 4 → (buff.set 4 1).getD i 0 = buff.getD i 0) ∧
    solver.decodeStopOnDemandR buff2 =
      (solver.decodeStartOnDemand (buff2.set 4 2), buff2.set 4 2) := by
  refine ⟨?_, ?_, ?_, ?_⟩
  · unfold client.decodeRangeRequest
    rw [if_pos ⟨h5, h4⟩]
  · exact getD_set_at buff 4 1 (by omega)
  · intro i hi
    exact getD_set_other buff 4 i 1 (fun hx => hi hx.symm)
  · unfold solver.decodeStopOnDemandR
    dsimp only
    rw [if_pos ⟨hlen2, hm2⟩]

/-- C10 (witness): the theorem at a concrete range_request buffer and
a concrete stop_on_demand frame. -/
theorem C10_patch_in_place_witness :
    5 ≤ ([0, 0, 0, 6, 2, 0, 0, 0, 7, 0] : List Nat).length ∧
    ([0, 0, 0, 6, 2, 0, 0, 0, 7, 0] : List Nat).getD 4 0 = 2 ∧
    client.decodeRangeRequest [0, 0, 0, 6, 2, 0, 0, 0, 7, 0] =
      (client.decodeSnapshotRequest
        (([0, 0, 0, 6, 2, 0, 0, 0, 7, 0] : List Nat).set 4 1),
       ([0, 0, 0, 6, 2, 0, 0, 0, 7, 0] : List Nat).set 4 1) ∧
    solver.decodeStopOnDemandR [0, 0, 0, 1, 3] =
      (solver.decodeStartOnDemand (([0, 0, 0, 1, 3] : List Nat).set 4 2),
       ([0, 0, 0, 1, 3] : List Nat).set 4 2) :=
  ⟨by decide, by decide,
   (C10_patch_in_place [0, 0, 0, 6, 2, 0, 0, 0, 7, 0] [0, 0, 0, 1, 3]
     (by decide) (by decide) (by decide) (by decide)).1,
   (C10_patch_in_place [0, 0, 0, 6, 2, 0, 0, 0, 7, 0] [0, 0, 0, 1, 3]
     (by decide) (by decide) (by decide) (by decide)).2.2.2⟩

/-- A pending buffer of `2^32 + 4` bytes whose 4-byte length field
reads `2^32 - 1`, so the `uint32_t` sum `piece_length = N + 4` wraps
to 3. -/
def bigPending : List Nat :=
  255 :: 255 :: 255 :: 255 :: List.replicate (2 ^ 32) 0

theorem bigPending_length : bigPending.length = 2 ^ 32 + 4 := by
  show (255 :: 255 :: 255 :: 255 :: List.replicate (2 ^ 32) 0).length = 2 ^ 32 + 4
  rw [List.length_cons, List.length_cons, List.length_cons, List.length_cons,
      List.length_replicate]

theorem bigPending_take : List.take 4 bigPending = [255, 255, 255, 255] := by
  show List.take 4 (255 :: 255 :: 255 :: 255 :: List.replicate (2 ^ 32) 0) = _
  rw [show (4 : Nat) = 3 + 1 from rfl, List.take_succ_cons,
      show (3 : Nat) = 2 + 1 from rfl, List.take_succ_cons,
      show (2 : Nat) = 1 + 1 from rfl, List.take_succ_cons,
      show (1 : Nat) = 0 + 1 from rfl, List.take_succ_cons, List.take_zero]

theorem bigPending_read : readPrimitiveAt 4 bigPending 0 = 2 ^ 32 - 1 := by
  unfold readPrimitiveAt
  rw [if_pos (by rw [bigPending_length]; norm_num)]
  show beVal (List.take 4 bigPending) = 2 ^ 32 - 1
  rw [bigPending_take]
  decide

theorem pieceLength_eq (p : List Nat) :
    MessageReceiver.pieceLength p = (readPrimitiveAt 4 p 0 + 4) % 2 ^ 32 :=
  rfl

theorem getNextMessage_eq (evs : List MessageReceiver.RecvEvent)
    (pending : List Nat) (interrupted : Bool) :
    MessageReceiver.getNextMessage evs pending interrupted =
      match MessageReceiver.recvLoop interrupted evs pending with
      | none => none
      | some p =>
        if interrupted then some ([], p)
        else
          some (p.take (MessageReceiver.pieceLength p),
                if MessageReceiver.pieceLength p < p.length then
                  p.drop (MessageReceiver.pieceLength p)
                else []) :=
  rfl

theorem bigPending_piece : MessageReceiver.pieceLength bigPending = 3 := by
  rw [pieceLength_eq, bigPending_read]
  omega

/-- C7 (counterexample): on `bigPending` the framer's hypotheses hold
(`pending.len >= 4` and `pending.len >= 4 + read_u32_be`), the flag is
clear, yet `getNextMessage` does not return the first
`read_u32_be + 4` bytes: the `uint32_t` local `piece_length` wraps to
3 and a 3-byte partial frame is split off instead. -/
theorem C7_counterexample :
    4 ≤ bigPending.length ∧
    4 + readPrimitiveAt 4 bigPending 0 ≤ bigPending.length ∧
    MessageReceiver.getNextMessage [] bigPending false ≠
      some (bigPending.take (readPrimitiveAt 4 bigPending 0 + 4),
            bigPending.drop (readPrimitiveAt 4 bigPending 0 + 4)) := by
  have hlen := bigPending_length
  have hread := bigPending_read
  have hpiece := bigPending_piece
  refine ⟨by omega, by omega, ?_⟩
  have hloop : MessageReceiver.recvLoop false [] bigPending = some bigPending := by
    apply MessageReceiver.recvLoop_done
    intro hc
    rcases hc.2 with hlt | hlt
    · omega
    · rw [hpiece] at hlt; omega
  have hget : MessageReceiver.getNextMessage [] bigPending false =
      some (bigPending.take 3, bigPending.drop 3) := by
    rw [getNextMessage_eq, hloop]
    dsimp only
    rw [hpiece, if_pos (show 3 < bigPending.length by omega),
        if_neg (show ¬ (false = true) by simp)]
  rw [hget]
  intro hcontra
  simp only [Option.some.injEq, Prod.mk.injEq] at hcontra
  have hlens := congrArg List.length hcontra.1
  rw [List.length_take, List.length_take] at hlens
  omega

/-- C7 (amended): whenever `pending` already holds a complete frame
(`pending.len >= 4` and `pending.len >= 4 + N` for
`N = read_u32_be(pending[0..4])`), the sum `N + 4` does not overflow
`uint32_t`, and `interrupted` is false, `getNextMessage` performs no
receive (the result is the same for every event supply) and splits
off exactly the first `N + 4` bytes, retaining exactly the rest. -/
theorem C7_complete_frame (pending : List Nat)
    (evs : List MessageReceiver.RecvEvent)
    (h4 : 4 ≤ pending.length)
    (hfull : 4 + readPrimitiveAt 4 pending 0 ≤ pending.length)
    (hwrap : readPrimitiveAt 4 pending 0 + 4 < 2 ^ 32) :
    MessageReceiver.getNextMessage evs pending false =
      some (pending.take (readPrimitiveAt 4 pending 0 + 4),
            pending.drop (readPrimitiveAt 4 pending 0 + 4)) := by
  have hpiece : MessageReceiver.pieceLength pending =
      readPrimitiveAt 4 pending 0 + 4 := by
    unfold MessageReceiver.pieceLength
    exact Nat.mod_eq_of_lt hwrap
  have hloop : MessageReceiver.recvLoop false evs pending = some pending := by
    apply MessageReceiver.recvLoop_done
    intro hc
    rcases hc.2 with hlt | hlt
    · omega
    · rw [hpiece] at hlt; omega
  unfold MessageReceiver.getNextMessage
  rw [hloop]
  dsimp only
  rw [hpiece, if_neg (by simp)]
  by_cases hrest : readPrimitiveAt 4 pending 0 + 4 < pending.length
  · rw [if_pos hrest]
  · rw [if_neg hrest]
    have heq : readPrimitiveAt 4 pending 0 + 4 = pending.length := by omega
    rw [heq, List.drop_length]

/-- C7 (witness): the amended theorem at a 6-byte pending buffer
holding the complete 5-byte frame `[0,0,0,1,9]` plus one byte of the
next frame. -/
theorem C7_complete_frame_witness :
    4 ≤ ([0, 0, 0, 1, 9, 7] : List Nat).length ∧
    4 + readPrimitiveAt 4 [0, 0, 0, 1, 9, 7] 0 ≤
      ([0, 0, 0, 1, 9, 7] : List Nat).length ∧
    MessageReceiver.getNextMessage [] [0, 0, 0, 1, 9, 7] false =
      some (([0, 0, 0, 1, 9, 7] : List Nat).take
              (readPrimitiveAt 4 [0, 0, 0, 1, 9, 7] 0 + 4),
            ([0, 0, 0, 1, 9, 7] : List Nat).drop
              (readPrimitiveAt 4 [0, 0, 0, 1, 9, 7] 0 + 4)) :=
  ⟨by decide, by decide,
   C7_complete_frame [0, 0, 0, 1, 9, 7] [] (by decide) (by decide) (by decide)⟩

/-! ### Round-trip of the solver_data message (C2) -/

namespace solver

/-- A well-formed solution: the alias fits `uint32_t`, the time fits
`int64_t`, the target is UTF-16 code units, the data is bytes, and
both sized fields fit their `uint32_t` length prefixes. -/
def wellFormedSol (s : SolutionData) : Prop :=
  s.type_alias < 2 ^ 32 ∧ -(2 ^ 63) ≤ s.time ∧ s.time < 2 ^ 63 ∧
  (∀ c ∈ s.target, c < 2 ^ 16) ∧ (∀ b ∈ s.data, b < 256) ∧
  2 * s.target.length < 2 ^ 32 ∧ s.data.length < 2 ^ 32

instance (s : SolutionData) : Decidable (wellFormedSol s) := by
  unfold wellFormedSol
  infer_instance

theorem solBytes_length (s : SolutionData) :
    (solBytes s).length = 20 + 2 * s.target.length + s.data.length := by
  simp [solBytes, beBytes_length, i64Bytes_length, sizedUTF16Bytes_length,
    sizedBlobBytes_length]
  omega

theorem solListBytes_cons_length (s : SolutionData) (ss : List SolutionData) :
    (solListBytes (s :: ss)).length =
      20 + 2 * s.target.length + s.data.length + (solListBytes ss).length := by
  simp [solListBytes, solBytes_length]

theorem length_le_solListBytes (sols : List SolutionData) :
    sols.length ≤ (solListBytes sols).length := by
  induction sols with
  | nil => simp [solListBytes]
  | cons s ss ih =>
    rw [solListBytes_cons_length, List.length_cons]
    omega

/-- Parsing the solution loop back over its own encoding. -/
theorem solLoop_spec (sols : List SolutionData) (post : List Nat)
    (r : BuffReader)
    (hw : ∀ s ∈ sols, wellFormedSol s)
    (hd : r.buff.drop r.cur_index = solListBytes sols ++ post) :
    solLoop sols.length r =
      (sols, { r with cur_index := r.cur_index + (solListBytes sols).length }) := by
  induction sols generalizing r with
  | nil => simp [solLoop, solListBytes]
  | cons s ss ih =>
    obtain ⟨hwa, hwlo, hwhi, hwt, hwd, hwtl, hwdl⟩ := hw s (List.mem_cons_self _ _)
    have h256 : (256 : Nat) ^ 4 = 2 ^ 32 := by norm_num
    have h2568 : (256 : Nat) ^ 8 = 2 ^ 64 := by norm_num
    have hd1 : r.buff.drop r.cur_index =
        beBytes 4 s.type_alias ++
          (i64Bytes s.time ++
            (sizedUTF16Bytes s.target ++
              (sizedBlobBytes s.data ++ (solListBytes ss ++ post)))) := by
      rw [hd]
      simp [solListBytes, solBytes, List.append_assoc]
    have h1 := readPrimitive_spec r 4 s.type_alias _ (by norm_num)
      (by omega) hd1
    have hd2 : r.buff.drop (r.cur_index + 4) =
        i64Bytes s.time ++
          (sizedUTF16Bytes s.target ++
            (sizedBlobBytes s.data ++ (solListBytes ss ++ post))) :=
      drop_add_of_drop hd1 (beBytes_length _ _)
    have hd2' : r.buff.drop (r.cur_index + 4) =
        beBytes 8 (s.time % (2 ^ 64 : Int)).toNat ++
          (sizedUTF16Bytes s.target ++
            (sizedBlobBytes s.data ++ (solListBytes ss ++ post))) := hd2
    have hlt8 : (s.time % (2 ^ 64 : Int)).toNat < 256 ^ 8 := by
      have := i64_emod_lt s.time
      omega
    have h2 := readPrimitive_spec { r with cur_index := r.cur_index + 4 } 8
      (s.time % (2 ^ 64 : Int)).toNat _ (by norm_num) hlt8 hd2'
    have hd3 : r.buff.drop (r.cur_index + 4 + 8) =
        sizedUTF16Bytes s.target ++
          (sizedBlobBytes s.data ++ (solListBytes ss ++ post)) := by
      have := drop_add_of_drop hd2' (beBytes_length _ _)
      rwa [show r.cur_index + 4 + 8 = r.cur_index + 4 + 8 from rfl] at this
    have h3 := readSizedUTF16_spec
      { r with cur_index := r.cur_index + 4 + 8 } s.target _ hwt hwtl hd3
    have hd4 : r.buff.drop (r.cur_index + 4 + 8 + (4 + 2 * s.target.length)) =
        sizedBlobBytes s.data ++ (solListBytes ss ++ post) :=
      drop_add_of_drop hd3 (sizedUTF16Bytes_length _)
    have hd4' : r.buff.drop (r.cur_index + 4 + 8 + 4 + 2 * s.target.length) =
        sizedBlobBytes s.data ++ (solListBytes ss ++ post) := by
      rw [show r.cur_index + 4 + 8 + 4 + 2 * s.target.length =
            r.cur_index + 4 + 8 + (4 + 2 * s.target.length) by omega]
      exact hd4
    have h4 := readSizedVector_spec
      { r with cur_index := r.cur_index + 4 + 8 + 4 + 2 * s.target.length }
      s.data _ hwd hwdl hd4'
    have hd5 : r.buff.drop
        (r.cur_index + 4 + 8 + 4 + 2 * s.target.length + (4 + s.data.length)) =
        solListBytes ss ++ post :=
      drop_add_of_drop hd4' (sizedBlobBytes_length _)
    have hd5' : r.buff.drop
        (r.cur_index + 4 + 8 + 4 + 2 * s.target.length + 4 + s.data.length) =
        solListBytes ss ++ post := by
      rw [show r.cur_index + 4 + 8 + 4 + 2 * s.target.length + 4 + s.data.length =
            r.cur_index + 4 + 8 + 4 + 2 * s.target.length + (4 + s.data.length)
          by omega]
      exact hd5
    have h5 := ih
      { r with cur_index :=
          r.cur_index + 4 + 8 + 4 + 2 * s.target.length + 4 + s.data.length }
      (fun x hx => hw x (List.mem_cons_of_mem _ hx)) hd5'
    have hi64 : i64OfNat (s.time % (2 ^ 64 : Int)).toNat = s.time :=
      i64OfNat_emod s.time hwlo hwhi
    have harith : r.cur_index + 4 + 8 + 4 + 2 * s.target.length + 4 +
        s.data.length + (solListBytes ss).length =
        r.cur_index + (solListBytes (s :: ss)).length := by
      rw [solListBytes_cons_length]
      omega
    simp only [List.length_cons, solLoop, h1, h2, h3, h4, h5, hi64, harith]

end solver

theorem drop_append_bytes (X : List Nat) : (beBytes 4 0 ++ X).drop 4 = X := by
  have h := List.drop_left (beBytes 4 0) X
  rwa [beBytes_length] at h

/-- C2: for every `create_uris` flag and list of well-formed solutions
whose encoding fits the `uint32_t` length field,
`solver::decodeSolutionMsg` inverts `solver::makeSolutionMsg` exactly,
preserving the order of the solutions and their bytes. -/
theorem C2_solution_roundtrip (create_uris : Bool)
    (solutions : List solver.SolutionData)
    (hw : ∀ s ∈ solutions, solver.wellFormedSol s)
    (hlen : (solver.makeSolutionMsg create_uris solutions).length < 2 ^ 32) :
    solver.decodeSolutionMsg (solver.makeSolutionMsg create_uris solutions) =
      (create_uris, solutions) := by
  have h256 : (256 : Nat) ^ 4 = 2 ^ 32 := by norm_num
  have hmk : solver.makeSolutionMsg create_uris solutions =
      beBytes 4 (1 + 1 + 4 + (solver.solListBytes solutions).length) ++
        (beBytes 1 4 ++
          (beBytes 1 (if create_uris then 1 else 0) ++
            (beBytes 4 solutions.length ++ solver.solListBytes solutions))) := by
    unfold solver.makeSolutionMsg writeLen
    dsimp only
    rw [show beBytes 4 0 ++ beBytes 1 4 ++
          beBytes 1 (if create_uris then 1 else 0) ++
          beBytes 4 solutions.length ++ solver.solListBytes solutions =
        beBytes 4 0 ++
          (beBytes 1 4 ++
            (beBytes 1 (if create_uris then 1 else 0) ++
              (beBytes 4 solutions.length ++ solver.solListBytes solutions)))
        by simp [List.append_assoc]]
    rw [drop_append_bytes]
  have hblen : (solver.makeSolutionMsg create_uris solutions).length =
      10 + (solver.solListBytes solutions).length := by
    rw [hmk]
    simp only [List.length_append, beBytes_length]
    omega
  have hd0 : (solver.makeSolutionMsg create_uris solutions).drop 0 =
      beBytes 4 (1 + 1 + 4 + (solver.solListBytes solutions).length) ++
        (beBytes 1 4 ++
          (beBytes 1 (if create_uris then 1 else 0) ++
            (beBytes 4 solutions.length ++ solver.solListBytes solutions))) := by
    rw [List.drop_zero]
    exact hmk
  have h1 := readPrimitive_spec
    { buff := solver.makeSolutionMsg create_uris solutions, cur_index := 0,
      out_of_range := false }
    4 (1 + 1 + 4 + (solver.solListBytes solutions).length) _
    (by norm_num) (by omega) hd0
  have hd1 := drop_add_of_drop hd0 (beBytes_length _ _)
  have h2 := readPrimitive_spec
    { buff := solver.makeSolutionMsg create_uris solutions, cur_index := 0 + 4,
      out_of_range := false }
    1 4 _ (by norm_num) (by norm_num) hd1
  have hd2 := drop_add_of_drop hd1 (beBytes_length _ _)
  have h3 := readPrimitive_spec
    { buff := solver.makeSolutionMsg create_uris solutions,
      cur_index := 0 + 4 + 1, out_of_range := false }
    1 (if create_uris then 1 else 0) _ (by norm_num)
    (by split <;> norm_num) hd2
  have hd3 := drop_add_of_drop hd2 (beBytes_length _ _)
  have hnlt : solutions.length < 256 ^ 4 := by
    have := solver.length_le_solListBytes solutions
    omega
  have h4 := readPrimitive_spec
    { buff := solver.makeSolutionMsg create_uris solutions,
      cur_index := 0 + 4 + 1 + 1, out_of_range := false }
    4 solutions.length _ (by norm_num) hnlt hd3
  have hd4 := drop_add_of_drop hd3 (beBytes_length _ _)
  have hd4' : (solver.makeSolutionMsg create_uris solutions).drop (0 + 4 + 1 + 1 + 4) =
      solver.solListBytes solutions ++ [] := by
    rw [List.append_nil]
    exact hd4
  have h5 := solver.solLoop_spec solutions []
    { buff := solver.makeSolutionMsg create_uris solutions,
      cur_index := 0 + 4 + 1 + 1 + 4, out_of_range := false }
    hw hd4'
  have hcond : (solver.makeSolutionMsg create_uris solutions).length =
      (1 + 1 + 4 + (solver.solListBytes solutions).length + 4) % 2 ^ 32 := by
    have hm : (1 + 1 + 4 + (solver.solListBytes solutions).length + 4) % 2 ^ 32 =
        1 + 1 + 4 + (solver.solListBytes solutions).length + 4 :=
      Nat.mod_eq_of_lt (by omega)
    omega
  unfold solver.decodeSolutionMsg
  simp only [BuffReader.init]
  simp only [h1, h2, h3, h4, h5]
  rw [if_pos (show (solver.makeSolutionMsg create_uris solutions).length =
        (1 + 1 + 4 + (solver.solListBytes solutions).length + 4) % 2 ^ 32 ∧
        True from ⟨hcond, trivial⟩)]
  cases create_uris <;> rfl

/-- C2 (witness): the round-trip theorem at two concrete solutions
with differing type aliases, a negative timestamp, and non-empty
data. -/
theorem C2_solution_roundtrip_witness :
    (∀ s ∈ [({ type_alias := 1, time := 5, target := [108], data := [9, 8] } :
              solver.SolutionData),
            { type_alias := 2, time := -3, target := [], data := [7] }],
        solver.wellFormedSol s) ∧
    solver.decodeSolutionMsg
        (solver.makeSolutionMsg true
          [{ type_alias := 1, time := 5, target := [108], data := [9, 8] },
           { type_alias := 2, time := -3, target := [], data := [7] }]) =
      (true,
       [{ type_alias := 1, time := 5, target := [108], data := [9, 8] },
        { type_alias := 2, time := -3, target := [], data := [7] }]) :=
  ⟨by decide,
   C2_solution_roundtrip true
     [{ type_alias := 1, time := 5, target := [108], data := [9, 8] },
      { type_alias := 2, time := -3, target := [], data := [7] }]
     (by decide) (by decide)⟩

end Owl
